import Mathlib

/-!
# Pygenda clipboard bridge (`csrc/pygenda_clipboard.c`)

A shallow embedding of the C file: the global pointer table `selectionStr`,
the two callbacks `cb_get_fn` and `cb_clear_fn`, and the exported `set_cb`.

* C memory is explicit.  A heap holds the live `malloc` blocks (address and
  cells), a counter for the next fresh address, and the log of the addresses
  released so far.  Addresses are never reused, so releasing a block twice is
  always detected.
* A pointer is `Option Addr`; `none` is `NULL`.
* A cell is `Option Byte`; `none` is a byte that was never written.
* Every C operation that can go wrong returns `Except Fault _`.
* The calls into GTK made by `cb_get_fn` are recorded, in order, as values of
  `HostCall`.
* `malloc` always succeeds (the source does not check its result).
* Lengths are the `size_t` values `strlen` returns, kept as natural numbers.
-/

namespace Pygenda

/-! ## Bytes, cells, faults -/

/-- A C `char`. -/
abbrev Byte := Fin 256

/-- One byte of memory: `none` until it is written. -/
abbrev Cell := Option Byte

/-- A heap address. -/
abbrev Addr := Nat

/-- A C pointer: `none` is `NULL`. -/
abbrev Ptr := Option Addr

/-- The ways a C operation of this file can go wrong. -/
inductive Fault where
  | nullDeref
  | danglingPointer
  | outOfBounds
  | uninitRead
  | invalidFree
deriving DecidableEq, Repr

/-- How a caller lays a text out in memory: its bytes, then the NUL terminator. -/
def cstring (a : List Byte) : List Cell :=
  a.map some ++ [some 0]

/-- The text a C string reader sees in the bytes `a`: everything before the first NUL. -/
def ctext (a : List Byte) : List Byte :=
  a.takeWhile (fun c => c != 0)

/-! ## libc -/

/-- C `strlen`: the number of bytes before the first NUL of the memory at the pointer. -/
def strlen : List Cell → Except Fault Nat
  | [] => .error .outOfBounds
  | none :: _ => .error .uninitRead
  | some c :: s =>
    if c = 0 then .ok 0
    else
      match strlen s with
      | .ok n => .ok (n + 1)
      | .error e => .error e

/-- C `strcpy`: copies `src` up to and including its first NUL over the start of `dst`. -/
def strcpy : List Cell → List Cell → Except Fault (List Cell)
  | _, [] => .error .outOfBounds
  | _, none :: _ => .error .uninitRead
  | [], some _ :: _ => .error .outOfBounds
  | _ :: dst, some c :: src =>
    if c = 0 then .ok (some 0 :: dst)
    else
      match strcpy dst src with
      | .ok r => .ok (some c :: r)
      | .error e => .error e

/-- Reads `n` bytes from the memory at a pointer. -/
def readBytes : Nat → List Cell → Except Fault (List Byte)
  | 0, _ => .ok []
  | _ + 1, [] => .error .outOfBounds
  | _ + 1, none :: _ => .error .uninitRead
  | n + 1, some c :: s =>
    match readBytes n s with
    | .ok r => .ok (c :: r)
    | .error e => .error e

/-- The heap: live blocks (newest first), the next fresh address, the addresses released. -/
structure Heap where
  blocks : List (Addr × List Cell)
  next : Addr
  freed : List Addr
deriving DecidableEq, Repr

/-- Addresses of the live blocks. -/
def Heap.addrs (h : Heap) : List Addr :=
  h.blocks.map Prod.fst

/-- C `malloc`: a fresh block of `size` unwritten bytes. -/
def malloc (size : Nat) (h : Heap) : Addr × Heap :=
  (h.next, { h with blocks := (h.next, List.replicate size none) :: h.blocks, next := h.next + 1 })

/-- C `free`: nothing for `NULL`; otherwise the block must be live and is released. -/
def free (p : Ptr) (h : Heap) : Except Fault Heap :=
  match p with
  | none => .ok h
  | some a =>
    if a ∈ h.addrs then
      .ok { h with blocks := h.blocks.filter (fun b => b.1 != a), freed := a :: h.freed }
    else .error .invalidFree

/-- The memory a pointer points to. -/
def Heap.load (h : Heap) (p : Ptr) : Except Fault (List Cell) :=
  match p with
  | none => .error .nullDeref
  | some a =>
    match h.blocks.find? (fun b => b.1 == a) with
    | some b => .ok b.2
    | none => .error .danglingPointer

/-- Replaces the cells of the first block with address `a`. -/
def storeBlock (a : Addr) (cells : List Cell) : List (Addr × List Cell) → List (Addr × List Cell)
  | [] => []
  | b :: bs => if b.1 == a then (a, cells) :: bs else b :: storeBlock a cells bs

/-- Writes back the memory of the block at `a`. -/
def Heap.store (h : Heap) (a : Addr) (cells : List Cell) : Heap :=
  { h with blocks := storeBlock a cells h.blocks }

/-! ## Constants and globals of the file -/

/-- Tag of the plain-text buffer. -/
def DATA_TXT_PLAIN : Nat := 0

/-- Tag of the calendar buffer. -/
def DATA_TXT_CALENDAR : Nat := 1

/-- Number of buffers. -/
def LEN_SELECTION_DATA : Nat := 2

/-- A `GtkTargetEntry`: target name, flags, info. -/
structure GtkTargetEntry where
  target : String
  flags : Nat
  info : Nat
deriving DecidableEq, Repr

/-- The table of requested types and the tag each maps to. -/
def target_array : List GtkTargetEntry :=
  [ ⟨"text/plain;charset=utf-8", 0, DATA_TXT_PLAIN⟩,
    ⟨"UTF8_STRING", 0, DATA_TXT_PLAIN⟩,
    ⟨"TEXT", 0, DATA_TXT_PLAIN⟩,
    ⟨"STRING", 0, DATA_TXT_PLAIN⟩,
    ⟨"text/calendar", 0, DATA_TXT_CALENDAR⟩ ]

/-- Length of `target_array`. -/
def LEN_TARGET_ARRAY : Nat := target_array.length

/-- The global `char *selectionStr[LEN_SELECTION_DATA]`. -/
structure SelectionStr where
  e0 : Ptr
  e1 : Ptr
deriving DecidableEq, Repr

/-- Array read `selectionStr[i]`. -/
def SelectionStr.get (s : SelectionStr) (i : Nat) : Except Fault Ptr :=
  match i with
  | 0 => .ok s.e0
  | 1 => .ok s.e1
  | _ => .error .outOfBounds

/-- Array write `selectionStr[i] = p`. -/
def SelectionStr.set (s : SelectionStr) (i : Nat) (p : Ptr) : Except Fault SelectionStr :=
  match i with
  | 0 => .ok { s with e0 := p }
  | 1 => .ok { s with e1 := p }
  | _ => .error .outOfBounds

/-- The state the file works on: the pointer table and the heap. -/
structure World where
  selectionStr : SelectionStr
  heap : Heap
deriving DecidableEq, Repr

/-- The zero-initialised table over a heap without any block. -/
def World.init : World :=
  { selectionStr := ⟨none, none⟩, heap := ⟨[], 0, []⟩ }

/-- A call `cb_get_fn` makes into GTK to answer a request. -/
inductive HostCall where
  | gtk_selection_data_set_text (str : Ptr) (len : Int)
  | gtk_selection_data_set (type : String) (format : Nat) (data : Ptr) (length : Nat)
deriving DecidableEq, Repr

/-! ## The three functions of the file -/

/-- Callback called when data is requested.  The case labels `DATA_TXT_PLAIN` and
`DATA_TXT_CALENDAR` are the literals 0 and 1; any other `type_idx` falls through the
`switch` without a call.  For the calendar case the arguments are evaluated first, so
`strlen(selectionStr[type_idx])` is taken before `gtk_selection_data_set` is called. -/
def cb_get_fn (type_idx : Nat) (w : World) : Except Fault (List HostCall × World) :=
  match type_idx with
  | 0 =>
    match w.selectionStr.get DATA_TXT_PLAIN with
    | .ok p => .ok ([.gtk_selection_data_set_text p (-1)], w)
    | .error e => .error e
  | 1 =>
    match w.selectionStr.get type_idx with
    | .ok p =>
      match w.heap.load p with
      | .ok m =>
        match strlen m with
        | .ok n => .ok ([.gtk_selection_data_set "text/calendar" 8 p n], w)
        | .error e => .error e
      | .error e => .error e
    | .error e => .error e
  | _ => .ok ([], w)

/-- Body of the loop of `cb_clear_fn` for one index. -/
def cb_clear_step (w : World) (i : Nat) : Except Fault World :=
  match w.selectionStr.get i with
  | .ok p =>
    match free p w.heap with
    | .ok h =>
      match w.selectionStr.set i none with
      | .ok s => .ok { selectionStr := s, heap := h }
      | .error e => .error e
    | .error e => .error e
  | .error e => .error e

/-- Callback called when the data is no longer needed. -/
def cb_clear_fn (w : World) : Except Fault World :=
  (List.range LEN_SELECTION_DATA).foldlM cb_clear_step w

/-- The host's registration call, as `set_cb` sees it: it is given the release callback. -/
abbrev Registration := (World → Except Fault World) → World → Except Fault World

/-- The statement pair `selectionStr[i] = malloc(strlen(txt)+1); strcpy(selectionStr[i],txt);`
that `set_cb` runs once for each of its two arguments. -/
def store_copy (i : Nat) (txt : List Cell) (w : World) : Except Fault World :=
  match strlen txt with
  | .ok n =>
    let (a, h) := malloc (n + 1) w.heap
    match w.selectionStr.set i (some a) with
    | .ok s =>
      match s.get i with
      | .ok p =>
        match h.load p with
        | .ok dst =>
          match strcpy dst txt with
          | .ok cells =>
            match p with
            | some q => .ok { selectionStr := s, heap := h.store q cells }
            | none => .error .nullDeref
          | .error e => .error e
        | .error e => .error e
      | .error e => .error e
    | .error e => .error e
  | .error e => .error e

/-- The exported function: registers with the host (`host` stands for
`gtk_clipboard_set_with_data`, which is handed `cb_clear_fn`), then takes copies of both
strings.  `txt` and `txtcal` are the caller's memory at the two pointers. -/
def set_cb (host : Registration) (txt txtcal : List Cell) (w : World) : Except Fault World :=
  match host cb_clear_fn w with
  | .ok w1 =>
    match store_copy DATA_TXT_PLAIN txt w1 with
    | .ok w2 => store_copy DATA_TXT_CALENDAR txtcal w2
    | .error e => .error e
  | .error e => .error e

/-! ## The host side and observations -/

deriving instance DecidableEq for Except

/-- Modelled from the spec: the host's registration call `gtk_clipboard_set_with_data`, which
is not part of this file.  Registration triggers the ownership-loss notification for
whatever owned the clipboard before, this component included, so the release callback it
is handed runs before the call returns. -/
def gtk_clipboard_set_with_data : Registration :=
  fun clear_func w => clear_func w

/-- A registration call that never runs the release callback it is handed. -/
def registration_without_release : Registration :=
  fun _ w => .ok w

/-- Modelled from the spec: the bytes a response call hands over to the host.  Plain text
with a negative length is read at the pointer up to the first terminator; otherwise
exactly the stated number of bytes is read.  What the host then does with these bytes is
not part of this file. -/
def HostCall.payload (h : Heap) : HostCall → Except Fault (List Byte)
  | .gtk_selection_data_set_text str len =>
    match h.load str with
    | .ok m =>
      if len < 0 then
        match strlen m with
        | .ok n => readBytes n m
        | .error e => .error e
      else readBytes len.toNat m
    | .error e => .error e
  | .gtk_selection_data_set _ _ data length =>
    match h.load data with
    | .ok m => readBytes length m
    | .error e => .error e

/-- Modelled from the spec: the host resolves a requested format identifier to the tag of the
first entry of the registered table with that identifier. -/
def resolve_target (name : String) : Option Nat :=
  (target_array.find? (fun e => e.target == name)).map (fun e => e.info)

/-- Modelled from the spec: a data request for a format identifier reaches `cb_get_fn` with
the tag the table gives it; an identifier that was not registered is not forwarded. -/
def on_data_requested (name : String) (w : World) : Except Fault (List HostCall × World) :=
  match resolve_target name with
  | some type_idx => cb_get_fn type_idx w
  | none => .ok ([], w)

/-- The text held by the buffer of slot `i`: the C string its pointer points to. -/
def World.stored (w : World) (i : Nat) : Except Fault (List Byte) :=
  match w.selectionStr.get i with
  | .ok p =>
    match w.heap.load p with
    | .ok m =>
      match strlen m with
      | .ok n => readBytes n m
      | .error e => .error e
    | .error e => .error e
  | .error e => .error e

/-- The addresses `selectionStr` refers to. -/
def World.refs (w : World) : List Addr :=
  [w.selectionStr.e0, w.selectionStr.e1].reduceOption

/-- A valid state: the entries of `selectionStr` that are not `NULL` point to live blocks,
and to different ones. -/
def World.WF (w : World) : Prop :=
  w.refs.Nodup ∧ ∀ p ∈ w.refs, p ∈ w.heap.addrs

instance (w : World) : Decidable w.WF := by
  unfold World.WF; infer_instance

/-- Both slots absent, or both present. -/
def AllOrNothing (w : World) : Prop :=
  (w.selectionStr.e0 = none ∧ w.selectionStr.e1 = none) ∨
    (w.selectionStr.e0.isSome = true ∧ w.selectionStr.e1.isSome = true)

instance (w : World) : Decidable (AllOrNothing w) := by
  unfold AllOrNothing; infer_instance

/-- The state `set_cb` is shown to leave (lemma `set_cb_eq`) when the registration call
left `w1` and the caller passed the texts `a` and `b`. -/
def published (a b : List Byte) (w1 : World) : World :=
  { selectionStr := ⟨some w1.heap.next, some (w1.heap.next + 1)⟩,
    heap := ⟨(w1.heap.next + 1, cstring (ctext b)) :: (w1.heap.next, cstring (ctext a)) ::
               w1.heap.blocks,
             w1.heap.next + 2, w1.heap.freed⟩ }

/-- One call into the file, by the application (`set_cb`) or by the host (the callbacks). -/
inductive Call where
  | set_cb (a b : List Byte)
  | cb_get_fn (type_idx : Nat)
  | cb_clear_fn
deriving DecidableEq, Repr

/-- Whether the call is a data request. -/
def Call.isRequest : Call → Bool
  | .cb_get_fn _ => true
  | _ => false

/-- Runs one call; the texts of `set_cb` are passed as C strings. -/
def Call.exec (host : Registration) (c : Call) (w : World) : Except Fault World :=
  match c with
  | .set_cb a b => Pygenda.set_cb host (cstring a) (cstring b) w
  | .cb_get_fn type_idx =>
    match Pygenda.cb_get_fn type_idx w with
    | .ok r => .ok r.2
    | .error e => .error e
  | .cb_clear_fn => Pygenda.cb_clear_fn w

/-- Runs a sequence of calls, stopping at the first fault. -/
def run (host : Registration) : List Call → World → Except Fault World
  | [], w => .ok w
  | c :: cs, w =>
    match c.exec host w with
    | .ok w1 => run host cs w1
    | .error e => .error e

/-- The two shapes a state has between calls when the host releases on registration:
nothing live and every address handed out so far released once; or exactly the two newest
addresses live and referenced, and every older one released once. -/
def Shape (w : World) : Prop :=
  (w.selectionStr = ⟨none, none⟩ ∧ w.heap.blocks = [] ∧
    w.heap.freed.Perm (List.range w.heap.next)) ∨
  (∃ n ma mb, w.selectionStr = ⟨some n, some (n + 1)⟩ ∧
    w.heap.blocks = [(n + 1, mb), (n, ma)] ∧ w.heap.next = n + 2 ∧
    w.heap.freed.Perm (List.range n))

/-! ## libc lemmas -/

theorem ctext_eq_self (a : List Byte) (h : ∀ c ∈ a, c ≠ 0) : ctext a = a := by
  unfold ctext
  rw [List.takeWhile_eq_self_iff]
  intro c hc
  simpa using h c hc

theorem ctext_ctext (a : List Byte) : ctext (ctext a) = ctext a := by
  apply ctext_eq_self
  intro c hc
  have := List.mem_takeWhile_imp hc
  simpa using this

/-- On a C string `strlen` stops at the first NUL. -/
theorem strlen_cstring (a : List Byte) : strlen (cstring a) = .ok (ctext a).length := by
  induction a with
  | nil => rfl
  | cons c a ih =>
    by_cases hc : c = 0
    · subst hc; simp [cstring, ctext, strlen]
    · have ih2 : strlen (List.map some a ++ [some 0]) = .ok (ctext a).length := ih
      simp [cstring, ctext, strlen, hc, ih2, List.takeWhile_cons]

theorem strlen_ctext (a : List Byte) : strlen (cstring (ctext a)) = .ok (ctext a).length := by
  rw [strlen_cstring, ctext_ctext]

/-- Copying a C string into a block of `strlen + 1` bytes fills the block exactly. -/
theorem strcpy_cstring (a : List Byte) :
    ∀ dst : List Cell, dst.length = (ctext a).length + 1 →
      strcpy dst (cstring a) = .ok (cstring (ctext a)) := by
  induction a with
  | nil =>
    intro dst hd
    match dst, hd with
    | [_], _ => rfl
  | cons c a ih =>
    intro dst hd
    by_cases hc : c = 0
    · subst hc
      match dst, hd with
      | [_], _ => simp [cstring, ctext, strcpy]
    · have hlen : (ctext (c :: a)).length = (ctext a).length + 1 := by
        simp [ctext, List.takeWhile_cons, hc]
      match dst, hd with
      | d :: dst, hd =>
        have hd2 : dst.length = (ctext a).length + 1 := by
          simp [hlen] at hd; exact hd
        have ih2 : strcpy dst (List.map some a ++ [some 0]) = .ok (cstring (ctext a)) :=
          ih dst hd2
        simp [cstring, ctext, strcpy, hc, ih2, List.takeWhile_cons]

theorem readBytes_cstring (t : List Byte) : readBytes t.length (cstring t) = .ok t := by
  induction t with
  | nil => rfl
  | cons c t ih =>
    have ih2 : readBytes t.length (List.map some t ++ [some 0]) = .ok t := ih
    simp [cstring, readBytes, ih2]

/-! ## What the three functions compute -/

theorem store_copy_plain (a : List Byte) (w : World) :
    store_copy DATA_TXT_PLAIN (cstring a) w =
      .ok { selectionStr := ⟨some w.heap.next, w.selectionStr.e1⟩,
            heap := ⟨(w.heap.next, cstring (ctext a)) :: w.heap.blocks, w.heap.next + 1,
                     w.heap.freed⟩ } := by
  have h2 := strcpy_cstring a (List.replicate ((ctext a).length + 1) none) (by simp)
  simp [store_copy, DATA_TXT_PLAIN, strlen_cstring, malloc, SelectionStr.set, SelectionStr.get,
    Heap.load, h2, Heap.store, storeBlock]

theorem store_copy_calendar (b : List Byte) (w : World) :
    store_copy DATA_TXT_CALENDAR (cstring b) w =
      .ok { selectionStr := ⟨w.selectionStr.e0, some w.heap.next⟩,
            heap := ⟨(w.heap.next, cstring (ctext b)) :: w.heap.blocks, w.heap.next + 1,
                     w.heap.freed⟩ } := by
  have h2 := strcpy_cstring b (List.replicate ((ctext b).length + 1) none) (by simp)
  simp [store_copy, DATA_TXT_CALENDAR, strlen_cstring, malloc, SelectionStr.set,
    SelectionStr.get, Heap.load, h2, Heap.store, storeBlock]

/-- The loop of `cb_clear_fn` unrolled: free slot 0, free slot 1, both set to `NULL`. -/
theorem cb_clear_fn_eq (w : World) :
    cb_clear_fn w =
      match free w.selectionStr.e0 w.heap with
      | .ok h1 =>
        match free w.selectionStr.e1 h1 with
        | .ok h2 => .ok ⟨⟨none, none⟩, h2⟩
        | .error e => .error e
      | .error e => .error e := by
  have hr : List.range LEN_SELECTION_DATA = [0, 1] := rfl
  unfold cb_clear_fn
  rw [hr]
  simp only [List.foldlM, bind, Except.bind, pure, Except.pure, cb_clear_step, SelectionStr.get,
    SelectionStr.set]
  cases h1 : free w.selectionStr.e0 w.heap with
  | error e => rfl
  | ok h1v =>
    simp only []
    cases h2 : free w.selectionStr.e1 h1v with
    | error e => rfl
    | ok h2v => rfl

/-- Whatever the registration call left, `set_cb` then stores two fresh copies. -/
theorem set_cb_eq (host : Registration) (a b : List Byte) (w w1 : World)
    (h : host cb_clear_fn w = .ok w1) :
    set_cb host (cstring a) (cstring b) w = .ok (published a b w1) := by
  simp [set_cb, h, store_copy_plain, store_copy_calendar, published]

/-- On a valid state `cb_clear_fn` succeeds. -/
theorem cb_clear_fn_ok (w : World) (hw : w.WF) :
    ∃ h, cb_clear_fn w = .ok ⟨⟨none, none⟩, h⟩ ∧ h.next = w.heap.next ∧
      (w.selectionStr = ⟨none, none⟩ → h = w.heap) := by
  obtain ⟨⟨e0, e1⟩, hp⟩ := w
  obtain ⟨hnd, hin⟩ := hw
  rw [cb_clear_fn_eq]
  cases e0 with
  | none =>
    cases e1 with
    | none => exact ⟨hp, rfl, rfl, fun _ => rfl⟩
    | some q =>
      have hq : q ∈ hp.addrs := hin q (by simp [World.refs, List.reduceOption])
      exact ⟨⟨hp.blocks.filter (fun b => b.1 != q), hp.next, q :: hp.freed⟩,
        by simp [free, hq], rfl, fun h => by simp at h⟩
  | some p =>
    have hpm : p ∈ hp.addrs := hin p (by simp [World.refs])
    cases e1 with
    | none =>
      exact ⟨⟨hp.blocks.filter (fun b => b.1 != p), hp.next, p :: hp.freed⟩,
        by simp [free, hpm], rfl, fun h => by simp at h⟩
    | some q =>
      have hq : q ∈ hp.addrs := hin q (by simp [World.refs])
      have hne : q ≠ p := by
        intro h; subst h; simp [World.refs] at hnd
      have hq2 : q ∈ Heap.addrs ⟨hp.blocks.filter (fun b => b.1 != p), hp.next, p :: hp.freed⟩ := by
        simp only [Heap.addrs, List.mem_map, List.mem_filter] at hq ⊢
        obtain ⟨blk, hb, rfl⟩ := hq
        exact ⟨blk, ⟨hb, by simpa using hne⟩, rfl⟩
      refine ⟨⟨(hp.blocks.filter (fun b => b.1 != p)).filter (fun b => b.1 != q), hp.next,
        q :: p :: hp.freed⟩, ?_, rfl, fun h => by simp at h⟩
      simp only [free, hpm, if_true, hq2]

theorem set_cb_ok (a b : List Byte) (w : World) (hw : w.WF) :
    ∃ w1, cb_clear_fn w = .ok w1 ∧ w1.selectionStr = ⟨none, none⟩ ∧
      set_cb gtk_clipboard_set_with_data (cstring a) (cstring b) w = .ok (published a b w1) := by
  obtain ⟨h, hc, _, _⟩ := cb_clear_fn_ok w hw
  exact ⟨_, hc, rfl, set_cb_eq _ a b w _ hc⟩

theorem published_WF (a b : List Byte) (w1 : World) : (published a b w1).WF := by
  simp [World.WF, World.refs, published, Heap.addrs]

theorem load_published_plain (a b : List Byte) (w1 : World) :
    (published a b w1).heap.load (some w1.heap.next) = .ok (cstring (ctext a)) := by
  have hne : (w1.heap.next + 1 == w1.heap.next) = false := by simp
  simp [published, Heap.load, List.find?, hne]

theorem load_published_calendar (a b : List Byte) (w1 : World) :
    (published a b w1).heap.load (some (w1.heap.next + 1)) = .ok (cstring (ctext b)) := by
  simp [published, Heap.load, List.find?]

theorem get_published_plain (a b : List Byte) (w1 : World) :
    cb_get_fn DATA_TXT_PLAIN (published a b w1) =
      .ok ([.gtk_selection_data_set_text (some w1.heap.next) (-1)], published a b w1) := by
  simp [cb_get_fn, DATA_TXT_PLAIN, SelectionStr.get, published]

theorem payload_published_plain (a b : List Byte) (w1 : World) :
    (HostCall.gtk_selection_data_set_text (some w1.heap.next) (-1)).payload
      (published a b w1).heap = .ok (ctext a) := by
  have hl := load_published_plain a b w1
  simp [HostCall.payload, hl, strlen_ctext, readBytes_cstring]

theorem stored_published_plain (a b : List Byte) (w1 : World) :
    (published a b w1).stored DATA_TXT_PLAIN = .ok (ctext a) := by
  have hl := load_published_plain a b w1
  have hs : (published a b w1).selectionStr.get 0 = .ok (some w1.heap.next) := rfl
  simp only [World.stored, DATA_TXT_PLAIN, hs, hl, strlen_ctext, readBytes_cstring]

theorem stored_published_calendar (a b : List Byte) (w1 : World) :
    (published a b w1).stored DATA_TXT_CALENDAR = .ok (ctext b) := by
  have hl := load_published_calendar a b w1
  have hs : (published a b w1).selectionStr.get 1 = .ok (some (w1.heap.next + 1)) := rfl
  simp only [World.stored, DATA_TXT_CALENDAR, hs, hl, strlen_ctext, readBytes_cstring]

/-- A data request that returns hands back the state it was given. -/
theorem cb_get_fn_world (type_idx : Nat) (w : World) (out : List HostCall) (w1 : World)
    (h : cb_get_fn type_idx w = .ok (out, w1)) : w1 = w := by
  match type_idx, h with
  | 0, h =>
    simp only [cb_get_fn, DATA_TXT_PLAIN, SelectionStr.get] at h
    cases h; rfl
  | 1, h =>
    simp only [cb_get_fn] at h
    split at h
    · split at h
      · split at h
        · cases h; rfl
        · cases h
      · cases h
    · cases h
  | n + 2, h =>
    simp only [cb_get_fn] at h
    cases h; rfl

/-! ## Invariants over call sequences -/

theorem exec_preserves (c : Call) (w w1 : World) (hw : w.WF ∧ AllOrNothing w)
    (h : c.exec gtk_clipboard_set_with_data w = .ok w1) : w1.WF ∧ AllOrNothing w1 := by
  cases c with
  | set_cb a b =>
    obtain ⟨u, _, _, hs⟩ := set_cb_ok a b w hw.1
    simp only [Call.exec] at h
    rw [hs] at h
    cases h
    exact ⟨published_WF a b u, Or.inr ⟨rfl, rfl⟩⟩
  | cb_get_fn type_idx =>
    simp only [Call.exec] at h
    cases hg : Pygenda.cb_get_fn type_idx w with
    | error e => rw [hg] at h; cases h
    | ok r =>
      rw [hg] at h
      cases h
      obtain ⟨out, w2⟩ := r
      have := cb_get_fn_world type_idx w out w2 hg
      simp only [this]
      exact hw
  | cb_clear_fn =>
    obtain ⟨hp, hc, _, _⟩ := cb_clear_fn_ok w hw.1
    simp only [Call.exec] at h
    rw [hc] at h
    cases h
    exact ⟨by simp [World.WF, World.refs], Or.inl ⟨rfl, rfl⟩⟩

theorem run_preserves (calls : List Call) :
    ∀ w w1 : World, w.WF ∧ AllOrNothing w →
      run gtk_clipboard_set_with_data calls w = .ok w1 → w1.WF ∧ AllOrNothing w1 := by
  induction calls with
  | nil =>
    intro w w1 hw h
    simp only [run] at h
    cases h
    exact hw
  | cons c cs ih =>
    intro w w1 hw h
    simp only [run] at h
    cases hc : c.exec gtk_clipboard_set_with_data w with
    | error e => rw [hc] at h; cases h
    | ok w2 =>
      rw [hc] at h
      exact ih w2 w1 (exec_preserves c w w2 hw hc) h

theorem perm_range_two (n : Nat) (l : List Nat) (h : l.Perm (List.range n)) :
    ((n + 1) :: n :: l).Perm (List.range (n + 2)) := by
  rw [List.range_succ, List.range_succ]
  have h1 : (n :: l).Perm (List.range n ++ [n]) :=
    (List.Perm.cons n h).trans (List.perm_append_singleton n (List.range n)).symm
  exact (List.Perm.cons (n + 1) h1).trans
    (List.perm_append_singleton (n + 1) (List.range n ++ [n])).symm

theorem shape_clear (w : World) (hw : Shape w) :
    ∃ w1, cb_clear_fn w = .ok w1 ∧ w1.selectionStr = ⟨none, none⟩ ∧ w1.heap.blocks = [] ∧
      w1.heap.freed.Perm (List.range w1.heap.next) ∧ w1.heap.next = w.heap.next ∧
      ∀ p ∈ w.heap.addrs, p ∈ w1.heap.freed := by
  obtain ⟨s, ⟨bl, nx, fr⟩⟩ := w
  rcases hw with ⟨hs, hb, hf⟩ | ⟨n, ma, mb, hs, hb, hn, hf⟩
  · simp only at hs hb hf
    subst hs; subst hb
    refine ⟨⟨⟨none, none⟩, ⟨[], nx, fr⟩⟩, ?_, rfl, rfl, hf, rfl, ?_⟩
    · rw [cb_clear_fn_eq]; rfl
    · intro p hp; simp [Heap.addrs] at hp
  · simp only at hs hb hn hf
    subst hs; subst hb; subst hn
    refine ⟨⟨⟨none, none⟩, ⟨[], n + 2, (n + 1) :: n :: fr⟩⟩, ?_, rfl, rfl,
      perm_range_two n fr hf, rfl, ?_⟩
    · rw [cb_clear_fn_eq]
      simp [free, Heap.addrs]
    · intro p hp
      simp only [Heap.addrs, List.map_cons, List.map_nil, List.mem_cons, List.mem_singleton,
        List.not_mem_nil, or_false] at hp
      simp only [List.mem_cons]
      rcases hp with h | h
      · exact Or.inl h
      · exact Or.inr (Or.inl h)

theorem shape_exec (c : Call) (w : World) (hw : Shape w) (hc : c.isRequest = false) :
    ∃ w1, c.exec gtk_clipboard_set_with_data w = .ok w1 ∧ Shape w1 ∧
      ∀ p ∈ w.heap.addrs, p ∈ w1.heap.freed ∧ p ∉ w1.heap.addrs := by
  obtain ⟨u, hcl, hs, hb, hf, hn, hrel⟩ := shape_clear w hw
  have hfresh : ∀ p ∈ w.heap.addrs, p < u.heap.next := by
    intro p hp
    have := (hf.mem_iff).1 (hrel p hp)
    simpa using this
  cases c with
  | set_cb a b =>
    refine ⟨published a b u, set_cb_eq _ a b w u hcl, Or.inr ⟨u.heap.next, cstring (ctext a),
      cstring (ctext b), rfl, by simp [published, hb], rfl, hf⟩, ?_⟩
    intro p hp
    refine ⟨hrel p hp, ?_⟩
    have := hfresh p hp
    simp only [published, Heap.addrs, hb, List.map_cons, List.map_nil, List.mem_cons,
      List.not_mem_nil, or_false]
    rintro (h | h) <;> (rw [h] at this; simp at this)
  | cb_get_fn i => simp [Call.isRequest] at hc
  | cb_clear_fn =>
    refine ⟨u, hcl, Or.inl ⟨hs, hb, hf⟩, ?_⟩
    intro p hp
    exact ⟨hrel p hp, by simp [Heap.addrs, hb]⟩

theorem shape_run (calls : List Call) :
    ∀ w : World, Shape w → (∀ c ∈ calls, c.isRequest = false) →
      ∃ w1, run gtk_clipboard_set_with_data calls w = .ok w1 ∧ Shape w1 := by
  induction calls with
  | nil => intro w hw _; exact ⟨w, rfl, hw⟩
  | cons c cs ih =>
    intro w hw hc
    obtain ⟨w1, he, hs1, _⟩ := shape_exec c w hw (hc c (List.mem_cons_self c cs))
    obtain ⟨w2, hr, hs2⟩ := ih w1 hs1 (fun d hd => hc d (List.mem_cons_of_mem c hd))
    exact ⟨w2, by simp only [run, he, hr], hs2⟩

theorem shape_owned (w : World) (hw : Shape w) :
    w.heap.addrs.Perm w.refs ∧ w.heap.freed.Nodup ∧
      (w.heap.addrs ++ w.heap.freed).Perm (List.range w.heap.next) ∧ AllOrNothing w := by
  obtain ⟨s, ⟨bl, nx, fr⟩⟩ := w
  rcases hw with ⟨hs, hb, hf⟩ | ⟨n, ma, mb, hs, hb, hn, hf⟩
  · simp only at hs hb hf
    subst hs; subst hb
    refine ⟨by simp [Heap.addrs, World.refs], hf.nodup_iff.2 (List.nodup_range nx), ?_,
      Or.inl ⟨rfl, rfl⟩⟩
    simpa [Heap.addrs] using hf
  · simp only at hs hb hn hf
    subst hs; subst hb; subst hn
    refine ⟨?_, hf.nodup_iff.2 (List.nodup_range n), ?_, Or.inr ⟨rfl, rfl⟩⟩
    · simp only [Heap.addrs, World.refs, List.map_cons, List.map_nil]
      exact List.Perm.swap n (n + 1) []
    · simpa [Heap.addrs] using perm_range_two n fr hf

/-! ## The claims -/

/-- C1. Round trip for plain text: for all texts `a` and `b` (a text is a C string, so `a`
has no NUL byte) and every valid prior state, `set_cb(a, b)` with the host releasing on
registration succeeds, and then `cb_get_fn` with tag 0 makes exactly one host call,
`gtk_selection_data_set_text` with length -1, on a pointer at which the host reads
exactly `a`. -/
theorem set_cb_get_plain_roundtrip (a b : List Byte) (w : World)
    (ha : ∀ c ∈ a, c ≠ 0) (hw : w.WF) :
    ∃ w1 p, set_cb gtk_clipboard_set_with_data (cstring a) (cstring b) w = .ok w1 ∧
      cb_get_fn DATA_TXT_PLAIN w1 = .ok ([.gtk_selection_data_set_text (some p) (-1)], w1) ∧
      (HostCall.gtk_selection_data_set_text (some p) (-1)).payload w1.heap = .ok a := by
  obtain ⟨w0, _, _, hs⟩ := set_cb_ok a b w hw
  refine ⟨_, w0.heap.next, hs, get_published_plain a b w0, ?_⟩
  rw [payload_published_plain, ctext_eq_self a ha]

/-- C1 at the texts "hi" and "B\nC", from a published state. -/
theorem set_cb_get_plain_roundtrip_witness :
    ∃ w1 p, set_cb gtk_clipboard_set_with_data (cstring [104, 105]) (cstring [66, 10, 67])
        ⟨⟨some 0, some 1⟩, ⟨[(1, cstring [9]), (0, cstring [8])], 2, []⟩⟩ = .ok w1 ∧
      cb_get_fn DATA_TXT_PLAIN w1 = .ok ([.gtk_selection_data_set_text (some p) (-1)], w1) ∧
      (HostCall.gtk_selection_data_set_text (some p) (-1)).payload w1.heap = .ok [104, 105] :=
  set_cb_get_plain_roundtrip [104, 105] [66, 10, 67]
    ⟨⟨some 0, some 1⟩, ⟨[(1, cstring [9]), (0, cstring [8])], 2, []⟩⟩ (by simp) (by decide)

/-- C4, as stated, fails in the initial state: with tag 0 the plain-text primitive is called
(with a NULL pointer), and with tag 1 the call faults on `strlen` of a NULL pointer. -/
theorem cb_get_fn_empty_slot_counterexample :
    cb_get_fn DATA_TXT_PLAIN World.init ≠ .ok ([], World.init) ∧
    cb_get_fn DATA_TXT_PLAIN World.init =
      .ok ([.gtk_selection_data_set_text none (-1)], World.init) ∧
    cb_get_fn DATA_TXT_CALENDAR World.init ≠ .ok ([], World.init) ∧
    cb_get_fn DATA_TXT_CALENDAR World.init = .error .nullDeref := by
  decide

/-- C4, amended. `cb_get_fn` has no guard for an absent buffer: in every state whose slot 0
is NULL, tag 0 still calls the plain-text primitive exactly once, with the NULL pointer and
length -1, and leaves the state unchanged; in every state whose slot 1 is NULL, tag 1
faults taking `strlen` of the NULL pointer, before the blob primitive is called. -/
theorem cb_get_fn_absent_buffer (w : World) :
    (w.selectionStr.e0 = none →
      cb_get_fn DATA_TXT_PLAIN w = .ok ([.gtk_selection_data_set_text none (-1)], w)) ∧
    (w.selectionStr.e1 = none → cb_get_fn DATA_TXT_CALENDAR w = .error .nullDeref) := by
  constructor
  · intro h
    simp [cb_get_fn, DATA_TXT_PLAIN, SelectionStr.get, h]
  · intro h
    simp [cb_get_fn, DATA_TXT_CALENDAR, SelectionStr.get, h, Heap.load]

/-- C4 amended, at the state after `cb_clear_fn` and at a state with only slot 0 present. -/
theorem cb_get_fn_absent_buffer_witness :
    cb_get_fn DATA_TXT_PLAIN ⟨⟨none, none⟩, ⟨[], 2, [1, 0]⟩⟩ =
      .ok ([.gtk_selection_data_set_text none (-1)], ⟨⟨none, none⟩, ⟨[], 2, [1, 0]⟩⟩) ∧
    cb_get_fn DATA_TXT_CALENDAR ⟨⟨some 0, none⟩, ⟨[(0, cstring [7])], 1, []⟩⟩ =
      .error .nullDeref :=
  ⟨(cb_get_fn_absent_buffer ⟨⟨none, none⟩, ⟨[], 2, [1, 0]⟩⟩).1 rfl,
   (cb_get_fn_absent_buffer ⟨⟨some 0, none⟩, ⟨[(0, cstring [7])], 1, []⟩⟩).2 rfl⟩

/-- C5. All-or-nothing invariant: every state reached from the initial state by a sequence
of `set_cb`, `cb_get_fn` and `cb_clear_fn` calls has both slots absent or both present,
and from such a state `set_cb(a, b)` returns with both slots present. -/
theorem all_or_nothing_invariant (calls : List Call) (w : World)
    (h : run gtk_clipboard_set_with_data calls World.init = .ok w) :
    AllOrNothing w ∧
      ∀ a b : List Byte, ∃ w1,
        set_cb gtk_clipboard_set_with_data (cstring a) (cstring b) w = .ok w1 ∧
        w1.selectionStr.e0.isSome = true ∧ w1.selectionStr.e1.isSome = true := by
  have hi : World.init.WF ∧ AllOrNothing World.init := by decide
  have hw := run_preserves calls World.init w hi h
  refine ⟨hw.2, fun a b => ?_⟩
  obtain ⟨u, _, _, hs⟩ := set_cb_ok a b w hw.1
  exact ⟨_, hs, rfl, rfl⟩

/-- C5 on a sequence that uses all three calls. -/
theorem all_or_nothing_invariant_witness :
    run gtk_clipboard_set_with_data
        [.set_cb [1] [2, 3], .cb_get_fn 1, .cb_clear_fn, .cb_get_fn 0, .set_cb [4] [5]]
        World.init =
      .ok ⟨⟨some 2, some 3⟩, ⟨[(3, cstring [5]), (2, cstring [4])], 4, [1, 0]⟩⟩ ∧
    AllOrNothing ⟨⟨some 2, some 3⟩, ⟨[(3, cstring [5]), (2, cstring [4])], 4, [1, 0]⟩⟩ :=
  ⟨by decide, (all_or_nothing_invariant
    [.set_cb [1] [2, 3], .cb_get_fn 1, .cb_clear_fn, .cb_get_fn 0, .set_cb [4] [5]]
    ⟨⟨some 2, some 3⟩, ⟨[(3, cstring [5]), (2, cstring [4])], 4, [1, 0]⟩⟩ (by decide)).1⟩

/-- C6. Idempotent release: on every valid state (empty, published, or with one slot
present) `cb_clear_fn` succeeds and leaves both slots absent; calling it again succeeds
and changes nothing; and on a state with both slots absent it changes nothing. -/
theorem cb_clear_fn_idempotent (w : World) (hw : w.WF) :
    ∃ w1, cb_clear_fn w = .ok w1 ∧ w1.selectionStr = ⟨none, none⟩ ∧
      cb_clear_fn w1 = .ok w1 ∧ (w.selectionStr = ⟨none, none⟩ → w1 = w) := by
  obtain ⟨h, hc, _, he⟩ := cb_clear_fn_ok w hw
  refine ⟨_, hc, rfl, ?_, ?_⟩
  · rw [cb_clear_fn_eq]; rfl
  · intro hs
    obtain ⟨s, hp⟩ := w
    simp only at hs
    subst hs
    rw [he rfl]

/-- C6 at a state with only slot 0 present. -/
theorem cb_clear_fn_idempotent_witness :
    ∃ w1, cb_clear_fn ⟨⟨some 3, none⟩, ⟨[(3, cstring [7])], 4, [2, 1, 0]⟩⟩ = .ok w1 ∧
      w1.selectionStr = ⟨none, none⟩ ∧ cb_clear_fn w1 = .ok w1 ∧
      ((⟨some 3, none⟩ : SelectionStr) = ⟨none, none⟩ →
        w1 = ⟨⟨some 3, none⟩, ⟨[(3, cstring [7])], 4, [2, 1, 0]⟩⟩) :=
  cb_clear_fn_idempotent ⟨⟨some 3, none⟩, ⟨[(3, cstring [7])], 4, [2, 1, 0]⟩⟩ (by decide)

/-- C7. Format aliasing: `target_array` is the five-entry list, every tag in it is below
`LEN_SELECTION_DATA`, each of the four plain-text identifiers resolves to tag 0 and
"text/calendar" to tag 1, and in every state a request for any of the four plain-text
identifiers is answered by the same call on the pointer of slot 0. -/
theorem target_array_aliases (w : World) :
    target_array =
      [⟨"text/plain;charset=utf-8", 0, 0⟩, ⟨"UTF8_STRING", 0, 0⟩, ⟨"TEXT", 0, 0⟩,
       ⟨"STRING", 0, 0⟩, ⟨"text/calendar", 0, 1⟩] ∧
    target_array.all (fun e => decide (e.info < LEN_SELECTION_DATA)) = true ∧
    resolve_target "text/plain;charset=utf-8" = some DATA_TXT_PLAIN ∧
    resolve_target "UTF8_STRING" = some DATA_TXT_PLAIN ∧
    resolve_target "TEXT" = some DATA_TXT_PLAIN ∧
    resolve_target "STRING" = some DATA_TXT_PLAIN ∧
    resolve_target "text/calendar" = some DATA_TXT_CALENDAR ∧
    on_data_requested "text/plain;charset=utf-8" w =
      .ok ([.gtk_selection_data_set_text w.selectionStr.e0 (-1)], w) ∧
    on_data_requested "UTF8_STRING" w =
      .ok ([.gtk_selection_data_set_text w.selectionStr.e0 (-1)], w) ∧
    on_data_requested "TEXT" w =
      .ok ([.gtk_selection_data_set_text w.selectionStr.e0 (-1)], w) ∧
    on_data_requested "STRING" w =
      .ok ([.gtk_selection_data_set_text w.selectionStr.e0 (-1)], w) := by
  have h1 : resolve_target "text/plain;charset=utf-8" = some DATA_TXT_PLAIN := by decide
  have h2 : resolve_target "UTF8_STRING" = some DATA_TXT_PLAIN := by decide
  have h3 : resolve_target "TEXT" = some DATA_TXT_PLAIN := by decide
  have h4 : resolve_target "STRING" = some DATA_TXT_PLAIN := by decide
  have h5 : resolve_target "text/calendar" = some DATA_TXT_CALENDAR := by decide
  have hg : cb_get_fn DATA_TXT_PLAIN w =
      .ok ([.gtk_selection_data_set_text w.selectionStr.e0 (-1)], w) := rfl
  refine ⟨rfl, by decide, h1, h2, h3, h4, h5, ?_, ?_, ?_, ?_⟩ <;>
    simp only [on_data_requested, h1, h2, h3, h4, hg]

/-- C8. Data requests do not mutate: for every state and every `type_idx`, a `cb_get_fn`
call that returns hands back the state unchanged, and for a `type_idx` other than 0 and 1
it returns without any host call. -/
theorem cb_get_fn_does_not_mutate (type_idx : Nat) (w : World) :
    (∀ out w1, cb_get_fn type_idx w = .ok (out, w1) → w1 = w) ∧
    (type_idx ≠ DATA_TXT_PLAIN → type_idx ≠ DATA_TXT_CALENDAR →
      cb_get_fn type_idx w = .ok ([], w)) := by
  refine ⟨fun out w1 h => cb_get_fn_world type_idx w out w1 h, fun h0 h1 => ?_⟩
  match type_idx, h0, h1 with
  | 0, h0, _ => exact absurd rfl h0
  | 1, _, h1 => exact absurd rfl h1
  | n + 2, _, _ => rfl

/-- C8 at tag 7 on a published state. -/
theorem cb_get_fn_does_not_mutate_witness :
    cb_get_fn 7 ⟨⟨some 0, some 1⟩, ⟨[(1, cstring [9]), (0, cstring [8])], 2, []⟩⟩ =
      .ok ([], ⟨⟨some 0, some 1⟩, ⟨[(1, cstring [9]), (0, cstring [8])], 2, []⟩⟩) :=
  (cb_get_fn_does_not_mutate 7
    ⟨⟨some 0, some 1⟩, ⟨[(1, cstring [9]), (0, cstring [8])], 2, []⟩⟩).2
    (by decide) (by decide)

/-- C9. Exactly-once release: with the host releasing on registration, every sequence of
`set_cb` and `cb_clear_fn` calls from the initial state runs without a fault (no block is
freed twice); in the state it reaches the live blocks are exactly the ones `selectionStr`
refers to (none or two), no address occurs twice in the release log, and every address
ever handed out is either live or released exactly once; the next `set_cb` or
`cb_clear_fn` releases every block that was live; and after a `set_cb` the live blocks
are exactly the two copies it made. -/
theorem exactly_once_release (calls : List Call) (hc : ∀ c ∈ calls, c.isRequest = false) :
    ∃ w, run gtk_clipboard_set_with_data calls World.init = .ok w ∧
      w.heap.addrs.Perm w.refs ∧ w.heap.freed.Nodup ∧
      (w.heap.addrs ++ w.heap.freed).Perm (List.range w.heap.next) ∧ AllOrNothing w ∧
      (∀ c : Call, c.isRequest = false →
        ∃ w1, c.exec gtk_clipboard_set_with_data w = .ok w1 ∧
          ∀ p ∈ w.heap.addrs, p ∈ w1.heap.freed ∧ p ∉ w1.heap.addrs) ∧
      ∀ a b : List Byte, ∃ w1,
        set_cb gtk_clipboard_set_with_data (cstring a) (cstring b) w = .ok w1 ∧
        w1.heap.blocks.map Prod.snd = [cstring (ctext b), cstring (ctext a)] := by
  have hi : Shape World.init := Or.inl ⟨rfl, rfl, List.Perm.refl _⟩
  obtain ⟨w, hr, hs⟩ := shape_run calls World.init hi hc
  obtain ⟨h1, h2, h3, h4⟩ := shape_owned w hs
  refine ⟨w, hr, h1, h2, h3, h4, fun c hcr => ?_, fun a b => ?_⟩
  · obtain ⟨w1, he, _, hrel⟩ := shape_exec c w hs hcr
    exact ⟨w1, he, hrel⟩
  · obtain ⟨u, hcl, _, hb, _, _, _⟩ := shape_clear w hs
    exact ⟨published a b u, set_cb_eq _ a b w u hcl, by simp [published, hb]⟩

/-- C9 on a sequence with a repeated release and a repeated publish. -/
theorem exactly_once_release_witness :
    ∃ w, run gtk_clipboard_set_with_data
        [.set_cb [1] [2], .cb_clear_fn, .cb_clear_fn, .set_cb [3] [4], .set_cb [5] [6]]
        World.init = .ok w ∧
      w.heap.addrs.Perm w.refs ∧ w.heap.freed.Nodup ∧
      (w.heap.addrs ++ w.heap.freed).Perm (List.range w.heap.next) ∧ AllOrNothing w ∧
      (∀ c : Call, c.isRequest = false →
        ∃ w1, c.exec gtk_clipboard_set_with_data w = .ok w1 ∧
          ∀ p ∈ w.heap.addrs, p ∈ w1.heap.freed ∧ p ∉ w1.heap.addrs) ∧
      ∀ a b : List Byte, ∃ w1,
        set_cb gtk_clipboard_set_with_data (cstring a) (cstring b) w = .ok w1 ∧
        w1.heap.blocks.map Prod.snd = [cstring (ctext b), cstring (ctext a)] :=
  exactly_once_release
    [.set_cb [1] [2], .cb_clear_fn, .cb_clear_fn, .set_cb [3] [4], .set_cb [5] [6]]
    (by simp [Call.isRequest])

/-- C10. The body of `set_cb` releases nothing: with a registration call that does not run
`cb_clear_fn`, `set_cb` from any state succeeds, logs no release and keeps every block that
was live; and `set_cb(x, y)` then `set_cb(z, t)` from the initial state leaves the two
blocks of the first call live but no longer referenced by `selectionStr`, while the
stored texts are `z` and `t`. -/
theorem set_cb_alone_releases_nothing (x y z t : List Byte) (w : World)
    (hz : ∀ c ∈ z, c ≠ 0) (ht : ∀ c ∈ t, c ≠ 0) :
    (∃ w1, set_cb registration_without_release (cstring x) (cstring y) w = .ok w1 ∧
      w1.heap.freed = w.heap.freed ∧ ∀ blk ∈ w.heap.blocks, blk ∈ w1.heap.blocks) ∧
    (∃ w1 w2 p q,
      set_cb registration_without_release (cstring x) (cstring y) World.init = .ok w1 ∧
      w1.selectionStr = ⟨some p, some q⟩ ∧
      set_cb registration_without_release (cstring z) (cstring t) w1 = .ok w2 ∧
      p ∈ w2.heap.addrs ∧ q ∈ w2.heap.addrs ∧ p ∉ w2.refs ∧ q ∉ w2.refs ∧
      w2.heap.freed = [] ∧
      w2.stored DATA_TXT_PLAIN = .ok z ∧ w2.stored DATA_TXT_CALENDAR = .ok t) := by
  constructor
  · refine ⟨published x y w, set_cb_eq _ x y w w rfl, rfl, ?_⟩
    intro blk hb
    simp [published, hb]
  · have s0 := stored_published_plain z t (published x y World.init)
    have s1 := stored_published_calendar z t (published x y World.init)
    rw [ctext_eq_self z hz] at s0
    rw [ctext_eq_self t ht] at s1
    refine ⟨published x y World.init, published z t (published x y World.init), 0, 1,
      set_cb_eq _ x y _ _ rfl, rfl, set_cb_eq _ z t _ _ rfl, ?_, ?_, ?_, ?_, rfl, s0, s1⟩ <;>
      simp [published, Heap.addrs, World.refs, World.init]

/-- C10 at "x", "y" then "z", "w". -/
theorem set_cb_alone_releases_nothing_witness :
    (∃ w1, set_cb registration_without_release (cstring [120]) (cstring [121])
        World.init = .ok w1 ∧
      w1.heap.freed = World.init.heap.freed ∧
      ∀ blk ∈ World.init.heap.blocks, blk ∈ w1.heap.blocks) ∧
    (∃ w1 w2 p q,
      set_cb registration_without_release (cstring [120]) (cstring [121]) World.init =
        .ok w1 ∧
      w1.selectionStr = ⟨some p, some q⟩ ∧
      set_cb registration_without_release (cstring [122]) (cstring [119]) w1 = .ok w2 ∧
      p ∈ w2.heap.addrs ∧ q ∈ w2.heap.addrs ∧ p ∉ w2.refs ∧ q ∉ w2.refs ∧
      w2.heap.freed = [] ∧
      w2.stored DATA_TXT_PLAIN = .ok [122] ∧ w2.stored DATA_TXT_CALENDAR = .ok [119]) :=
  set_cb_alone_releases_nothing [120] [121] [122] [119] World.init (by simp) (by simp)

end Pygenda
